import Mathlib

/-!
Verification development for the password-hashing script
`src/backend/rehab_tracking/create_user.py`:

  line 1: import bcrypt
  line 3: password = "TestPassword123!"
  line 4: salt = bcrypt.gensalt()
  line 5: hash = bcrypt.hashpw(password.encode('utf-8'), salt)
  line 6: print(hash.decode('utf-8'))

The hashing primitive (`bcrypt.gensalt` / `bcrypt.hashpw`) is a library whose
source is not part of this repository, so its operations are modelled from the
specification's Hasher component (GenerateSalt / Hash / Render and the error
taxonomy EntropyUnavailable, InputTooLong, InvalidSalt, EncodingError).
Bytes are modelled as natural numbers below 256, byte strings as `List Nat`,
and text as Lean `String`.
-/

/-- Modelled from the spec: the error taxonomy of section 7
(`EntropyUnavailable`, `InputTooLong`, `InvalidSalt`, `EncodingError`). -/
inductive BErr where
  | entropyUnavailable
  | inputTooLong
  | invalidSalt
  | encodingError
deriving DecidableEq, Repr

/-- Modelled from the spec: the scheme's radix-64 digit alphabet
`./A-Za-z0-9`, as the byte code of the n-th digit (defined for n < 64). -/
def b64CharCode (n : Nat) : Nat :=
  if n < 1 then 46
  else if n < 2 then 47
  else if n < 28 then 63 + n
  else if n < 54 then 69 + n
  else 48 + (n - 54)

/-- Modelled from the spec: the scheme's textual encoding of raw bytes into
radix-64 digits (3 input bytes become 4 digits, with a shorter final group). -/
def b64encode : List Nat → List Nat
  | [] => []
  | [b1] => [b64CharCode (b1 / 4), b64CharCode (b1 % 4 * 16)]
  | [b1, b2] =>
    [b64CharCode (b1 / 4), b64CharCode (b1 % 4 * 16 + b2 / 16),
     b64CharCode (b2 % 16 * 4)]
  | b1 :: b2 :: b3 :: rest =>
    b64CharCode (b1 / 4) :: b64CharCode (b1 % 4 * 16 + b2 / 16) ::
    b64CharCode (b2 % 16 * 4 + b3 / 64) :: b64CharCode (b3 % 64) ::
    b64encode rest

/-- Is a byte a valid radix-64 digit of the scheme's alphabet? -/
def validRadix64Byte (b : Nat) : Bool :=
  b == 46 || b == 47 || (65 ≤ b && b ≤ 90) || (97 ≤ b && b ≤ 122) ||
    (48 ≤ b && b ≤ 57)

/-- Modelled from the spec: the process-wide random-byte source, as a stream
of optional bytes; `none` models the source being unable to produce bytes
(the `EntropyUnavailable` condition). -/
def EntropySource : Type := Nat → Option Nat

/-- Read `n` bytes from the entropy source starting at position `i`,
reducing each draw modulo 256; fails if any draw is unavailable. -/
def readBytes (src : EntropySource) : Nat → Nat → Option (List Nat)
  | _, 0 => some []
  | i, n + 1 =>
    match src i with
    | none => none
    | some b =>
      match readBytes src (i + 1) n with
      | none => none
      | some bs => some (b % 256 :: bs)

/-- Modelled from the spec: `GenerateSalt()` (the library's `gensalt`): draws
16 random bytes and renders the salt record `$2b$` + two cost digits + `$` +
22 radix-64 digits; fails with `EntropyUnavailable` when the random source
cannot produce bytes, and rejects a cost factor outside the scheme's 4..31
range. The default cost factor is 12. -/
def gensalt (rounds : Nat) (src : EntropySource) : Except BErr (List Nat) :=
  if rounds < 4 ∨ 31 < rounds then .error .invalidSalt
  else
    match readBytes src 0 16 with
    | none => .error .entropyUnavailable
    | some raw =>
      .ok ([36, 50, 98, 36, 48 + rounds / 10, 48 + rounds % 10, 36] ++
        b64encode raw)

/-- Modelled from the spec: parsing the self-describing salt layout
`$2<version>$<2 cost digits>$<22 radix-64 digits>` from the front of a byte
string (a full digest is accepted as a salt carrier, as the verification law
requires); yields the cost factor and the 22 salt digits, or `none` when the
salt is malformed. -/
def parseSalt (s : List Nat) : Option (Nat × List Nat) :=
  match s with
  | a0 :: a1 :: v :: a3 :: d1 :: d2 :: a6 :: rest =>
    if a0 = 36 ∧ a1 = 50 ∧ (v = 97 ∨ v = 98) ∧ a3 = 36 ∧
        48 ≤ d1 ∧ d1 ≤ 57 ∧ 48 ≤ d2 ∧ d2 ≤ 57 ∧ a6 = 36 then
      if 4 ≤ (d1 - 48) * 10 + (d2 - 48) ∧ (d1 - 48) * 10 + (d2 - 48) ≤ 31 ∧
          (rest.take 22).length = 22 ∧ (rest.take 22).all validRadix64Byte then
        some ((d1 - 48) * 10 + (d2 - 48), rest.take 22)
      else none
    else none
  | _ => none

/-- A canonical well-formed salt: exactly the 29-byte record that
`GenerateSalt` produces (parseable, with nothing after the 22 salt digits). -/
def wellFormedSalt (s : List Nat) : Bool :=
  s.length == 29 && (parseSalt s).isSome

/-- Modelled from the spec: the spec fixes the digest layout, determinism and
the cost/salt inputs of the key-derivation core but not the core function
itself (the library's EksBlowfish computation, not part of this repository);
this stand-in is any fixed deterministic mixing of cost factor, salt digits
and plaintext bytes into the scheme's 23 hash bytes. Like every function into
a fixed 23-byte range, it is not injective on plaintexts. -/
def bcryptCore (cost : Nat) (saltChars pw : List Nat) : List Nat :=
  (List.range 23).map (fun i =>
    (pw.foldl (· + ·) 0 * (i + 1) +
      saltChars.foldl (fun a b => a * 31 + b) (cost + 1) + i) % 256)

/-- Modelled from the spec: `Hash(plaintext, salt)` (the library's `hashpw`):
fails with `InvalidSalt` on a malformed salt and with `InputTooLong` when the
plaintext exceeds the scheme's 72-byte limit; otherwise produces the
self-describing digest: the 29-byte salt record followed by 31 radix-64
digits encoding the 23 hash bytes. -/
def hashpw (pw salt : List Nat) : Except BErr (List Nat) :=
  match parseSalt salt with
  | none => .error .invalidSalt
  | some (cost, chars) =>
    if 72 < pw.length then .error .inputTooLong
    else .ok (salt.take 29 ++ b64encode (bcryptCore cost chars pw))

/-- UTF-8 encoding of one unicode scalar value. -/
def utf8EncodeChar (n : Nat) : List Nat :=
  if n < 128 then [n]
  else if n < 2048 then [192 + n / 64, 128 + n % 64]
  else if n < 65536 then
    [224 + n / 4096, 128 + n / 64 % 64, 128 + n % 64]
  else
    [240 + n / 262144, 128 + n / 4096 % 64, 128 + n / 64 % 64, 128 + n % 64]

/-- UTF-8 encoding of a string (Python's `str.encode` with encoding utf-8). -/
def utf8Encode (s : String) : List Nat :=
  s.data.flatMap (fun c => utf8EncodeChar c.toNat)

/-- Is a byte a UTF-8 continuation byte? -/
def contByte (b : Nat) : Bool := 128 ≤ b && b < 192

/-- Scalar value of a two-byte UTF-8 sequence, rejecting bad continuation
bytes and overlong forms. -/
def utf8Scalar2 (b b2 : Nat) : Except BErr Nat :=
  if contByte b2 then
    if (b - 192) * 64 + (b2 - 128) < 128 then .error .encodingError
    else .ok ((b - 192) * 64 + (b2 - 128))
  else .error .encodingError

/-- Scalar value of a three-byte UTF-8 sequence, rejecting bad continuation
bytes, overlong forms and surrogates. -/
def utf8Scalar3 (b b2 b3 : Nat) : Except BErr Nat :=
  if contByte b2 && contByte b3 then
    if (b - 224) * 4096 + (b2 - 128) * 64 + (b3 - 128) < 2048 ∨
        (55296 ≤ (b - 224) * 4096 + (b2 - 128) * 64 + (b3 - 128) ∧
         (b - 224) * 4096 + (b2 - 128) * 64 + (b3 - 128) < 57344) then
      .error .encodingError
    else .ok ((b - 224) * 4096 + (b2 - 128) * 64 + (b3 - 128))
  else .error .encodingError

/-- Scalar value of a four-byte UTF-8 sequence, rejecting bad continuation
bytes, overlong forms and out-of-range scalars. -/
def utf8Scalar4 (b b2 b3 b4 : Nat) : Except BErr Nat :=
  if contByte b2 && contByte b3 && contByte b4 then
    if (b - 240) * 262144 + (b2 - 128) * 4096 + (b3 - 128) * 64 +
        (b4 - 128) < 65536 ∨
        1114111 < (b - 240) * 262144 + (b2 - 128) * 4096 + (b3 - 128) * 64 +
          (b4 - 128) then
      .error .encodingError
    else .ok ((b - 240) * 262144 + (b2 - 128) * 4096 + (b3 - 128) * 64 +
      (b4 - 128))
  else .error .encodingError

/-- Strict UTF-8 decoding of a byte string into characters, rejecting
overlong forms, surrogates, out-of-range scalars and truncated sequences
(Python's `bytes.decode` with encoding utf-8, errors collapsed to
`EncodingError`). The list shapes are spelled out so each step sees the
continuation bytes a lead byte announces; a lead byte announcing more
continuation bytes than remain is a truncated sequence, an error. -/
def utf8DecodeChars : List Nat → Except BErr (List Char)
  | [] => .ok []
  | [b] =>
    if b < 128 then (utf8DecodeChars []).map (fun cs => Char.ofNat b :: cs)
    else .error .encodingError
  | [b, b2] =>
    if b < 128 then
      (utf8DecodeChars [b2]).map (fun cs => Char.ofNat b :: cs)
    else if b < 192 then .error .encodingError
    else if b < 224 then
      (utf8Scalar2 b b2).bind (fun n =>
        (utf8DecodeChars []).map (fun cs => Char.ofNat n :: cs))
    else .error .encodingError
  | [b, b2, b3] =>
    if b < 128 then
      (utf8DecodeChars [b2, b3]).map (fun cs => Char.ofNat b :: cs)
    else if b < 192 then .error .encodingError
    else if b < 224 then
      (utf8Scalar2 b b2).bind (fun n =>
        (utf8DecodeChars [b3]).map (fun cs => Char.ofNat n :: cs))
    else if b < 240 then
      (utf8Scalar3 b b2 b3).bind (fun n =>
        (utf8DecodeChars []).map (fun cs => Char.ofNat n :: cs))
    else .error .encodingError
  | b :: b2 :: b3 :: b4 :: rest =>
    if b < 128 then
      (utf8DecodeChars (b2 :: b3 :: b4 :: rest)).map
        (fun cs => Char.ofNat b :: cs)
    else if b < 192 then .error .encodingError
    else if b < 224 then
      (utf8Scalar2 b b2).bind (fun n =>
        (utf8DecodeChars (b3 :: b4 :: rest)).map
          (fun cs => Char.ofNat n :: cs))
    else if b < 240 then
      (utf8Scalar3 b b2 b3).bind (fun n =>
        (utf8DecodeChars (b4 :: rest)).map (fun cs => Char.ofNat n :: cs))
    else if b < 248 then
      (utf8Scalar4 b b2 b3 b4).bind (fun n =>
        (utf8DecodeChars rest).map (fun cs => Char.ofNat n :: cs))
    else .error .encodingError

/-- Modelled from the spec: `Render(digest)`, the conversion of the digest's
byte representation to text (`hash.decode('utf-8')` in the script); its only
failure mode is an encoding error. -/
def render (d : List Nat) : Except BErr String :=
  match utf8DecodeChars d with
  | .error e => .error e
  | .ok cs => .ok (String.mk cs)

/-- Modelled from the spec: the companion verify function of the scheme
(the library's `checkpw`): re-hash the candidate plaintext with the salt
record embedded in the stored digest and compare. -/
def checkpw (pw hashed : List Nat) : Bool :=
  match hashpw pw hashed with
  | .ok d => d == hashed
  | .error _ => false

/-- The observable outcome of one process run: what was written to standard
output and to the error stream, the exit code, and the names of files
written. -/
structure ProcResult where
  stdout : String
  stderr : String
  exitCode : Nat
  filesWritten : List String
deriving DecidableEq, Repr

/-- Modelled from the spec: the diagnostic message the runtime prints to the
error stream when a raised condition propagates uncaught. -/
def errMsg : BErr → String
  | .entropyUnavailable => "Traceback: uncaught EntropyUnavailable"
  | .inputTooLong => "Traceback: uncaught InputTooLong"
  | .invalidSalt => "Traceback: uncaught InvalidSalt"
  | .encodingError => "Traceback: uncaught EncodingError"

/-- The digest pipeline of the script body for a given plaintext: encode the
plaintext, generate a salt at the default cost factor 12, hash, and render
the digest to text. Any raised condition short-circuits. -/
def hashAppDigest (pw : String) (src : EntropySource) : Except BErr String :=
  match gensalt 12 src with
  | .error e => .error e
  | .ok salt =>
    match hashpw (utf8Encode pw) salt with
    | .error e => .error e
    | .ok h => render h

/-- One full process run of the script body with plaintext `pw`: on success
the rendered digest plus a newline goes to standard output and the process
exits 0; an uncaught condition leaves standard output empty, prints a
diagnostic to the error stream and exits 1. The script opens no files. -/
def runHashApp (pw : String) (src : EntropySource) : ProcResult :=
  match hashAppDigest pw src with
  | .ok t => ⟨t ++ "\n", "", 0, []⟩
  | .error e => ⟨"", errMsg e, 1, []⟩

/-- The script `create_user.py` itself: the plaintext is the hardcoded
literal `"TestPassword123!"`. -/
def createUserRun (src : EntropySource) : ProcResult :=
  runHashApp "TestPassword123!" src

/-- A fixed test entropy source used in concrete witnesses. -/
def srcW : EntropySource := fun i => some (i * 37 + 5)

/-- The entropy source that can never produce a byte. -/
def srcNone : EntropySource := fun _ => none

/-- The salt `GenerateSalt` produces from the test source `srcW`. -/
def saltW : List Nat :=
  [36, 50, 98, 36, 49, 50, 36, 47, 81, 110, 78, 98, 72, 107, 56, 50, 117,
   101, 114, 83, 108, 99, 97, 117, 99, 87, 74, 75, 46]

/-- A concrete canonical salt: cost 12, all 22 salt digits the letter A. -/
def saltA : List Nat := [36, 50, 98, 36, 49, 50, 36] ++ List.replicate 22 65

/-- A concrete canonical salt: cost 12, all 22 salt digits the letter B. -/
def saltB : List Nat := [36, 50, 98, 36, 49, 50, 36] ++ List.replicate 22 66

/-- The digest of the one-byte plaintext `[97]` under `saltA`. -/
def digestA : List Nat :=
  saltA ++ [66, 108, 66, 81, 76, 72, 90, 50, 85, 112, 117, 99, 101, 77, 72,
    67, 110, 101, 102, 111, 120, 65, 52, 79, 54, 106, 81, 48, 69, 70, 109]

/-- The digest of the one-byte plaintext `[97]` under `saltB`. -/
def digestB : List Nat :=
  saltB ++ [90, 114, 46, 119, 106, 78, 88, 87, 115, 102, 118, 56, 50, 67,
    73, 105, 47, 107, 104, 73, 74, 71, 53, 117, 83, 112, 79, 85, 99, 76,
    109]

/-- The digest of the two-byte plaintext `[97, 98]` under `saltA`. -/
def digestC : List Nat :=
  saltA ++ [97, 66, 82, 50, 116, 71, 47, 67, 65, 75, 119, 79, 84, 47, 104,
    97, 109, 69, 79, 109, 53, 74, 47, 121, 77, 78, 120, 46, 102, 67, 101]

/-- The rendering of `digestA` as text. -/
def textA : String := "$2b$12$AAAAAAAAAAAAAAAAAAAAAABlBQLHZ2UpuceMHCnefoxA4O6jQ0EFm"

/-- The digest string the script emits when run over the source `srcW`. -/
def textW : String := "$2b$12$/QnNbHk82uerSlcaucWJK.z2Gr0GKs0WOt0mSu02Wv1Gaw1Wex1mi"

/-! ### Basic facts about the radix-64 encoding -/

theorem validRadix64Byte_lt_128 {b : Nat} (h : validRadix64Byte b = true) :
    b < 128 := by
  simp only [validRadix64Byte, Bool.or_eq_true, beq_iff_eq, Bool.and_eq_true,
    decide_eq_true_eq] at h
  omega

theorem b64CharCode_valid : ∀ n, n < 64 → validRadix64Byte (b64CharCode n) = true := by
  decide

theorem b64encode_length (bs : List Nat) :
    (b64encode bs).length = (4 * bs.length + 2) / 3 := by
  induction bs using b64encode.induct with
  | case1 => simp [b64encode]
  | case2 b1 => simp [b64encode]
  | case3 b1 b2 => simp [b64encode]
  | case4 b1 b2 b3 rest ih =>
    simp only [b64encode, List.length_cons, ih]
    omega

theorem b64encode_valid {bs : List Nat} (hb : ∀ b ∈ bs, b < 256) :
    ∀ c ∈ b64encode bs, validRadix64Byte c = true := by
  induction bs using b64encode.induct with
  | case1 => simp [b64encode]
  | case2 b1 =>
    have h1 : b1 < 256 := hb b1 (by simp)
    intro c hc
    simp only [b64encode, List.mem_cons, List.not_mem_nil, or_false] at hc
    rcases hc with rfl | rfl
    · exact b64CharCode_valid _ (by omega)
    · exact b64CharCode_valid _ (by omega)
  | case3 b1 b2 =>
    have h1 : b1 < 256 := hb b1 (by simp)
    have h2 : b2 < 256 := hb b2 (by simp)
    intro c hc
    simp only [b64encode, List.mem_cons, List.not_mem_nil, or_false] at hc
    rcases hc with rfl | rfl | rfl
    · exact b64CharCode_valid _ (by omega)
    · exact b64CharCode_valid _ (by omega)
    · exact b64CharCode_valid _ (by omega)
  | case4 b1 b2 b3 rest ih =>
    have h1 : b1 < 256 := hb b1 (by simp)
    have h2 : b2 < 256 := hb b2 (by simp)
    have h3 : b3 < 256 := hb b3 (by simp)
    have ih' := ih (fun x hx => hb x (by simp [hx]))
    intro c hc
    simp only [b64encode, List.mem_cons] at hc
    rcases hc with rfl | rfl | rfl | rfl | hc
    · exact b64CharCode_valid _ (by omega)
    · exact b64CharCode_valid _ (by omega)
    · exact b64CharCode_valid _ (by omega)
    · exact b64CharCode_valid _ (by omega)
    · exact ih' c hc

theorem b64encode_lt_128 {bs : List Nat} (hb : ∀ b ∈ bs, b < 256) :
    ∀ c ∈ b64encode bs, c < 128 :=
  fun c hc => validRadix64Byte_lt_128 (b64encode_valid hb c hc)

/-! ### Facts about salt generation -/

theorem readBytes_some {src : EntropySource} :
    ∀ n i bs, readBytes src i n = some bs →
      bs.length = n ∧ ∀ b ∈ bs, b < 256 := by
  intro n
  induction n with
  | zero =>
    intro i bs h
    simp only [readBytes] at h
    injection h with h
    subst h
    simp
  | succ n ih =>
    intro i bs h
    rw [readBytes] at h
    cases hsrc : src i with
    | none => rw [hsrc] at h; cases h
    | some b =>
      rw [hsrc] at h
      cases hrb : readBytes src (i + 1) n with
      | none => rw [hrb] at h; cases h
      | some bs0 =>
        rw [hrb] at h
        injection h with h
        subst h
        obtain ⟨hl, hlt⟩ := ih (i + 1) bs0 hrb
        refine ⟨by simp [hl], ?_⟩
        intro x hx
        rcases List.mem_cons.mp hx with rfl | hx
        · exact Nat.mod_lt _ (by omega)
        · exact hlt x hx

theorem bcryptCore_length (cost : Nat) (saltChars pw : List Nat) :
    (bcryptCore cost saltChars pw).length = 23 := by
  simp [bcryptCore]

theorem bcryptCore_lt_256 (cost : Nat) (saltChars pw : List Nat) :
    ∀ b ∈ bcryptCore cost saltChars pw, b < 256 := by
  intro b hb
  simp only [bcryptCore, List.mem_map, List.mem_range] at hb
  obtain ⟨i, _, rfl⟩ := hb
  exact Nat.mod_lt _ (by omega)

/-! ### Facts about salt parsing and hashing -/

theorem gensalt_ok {src : EntropySource} {s : List Nat}
    (h : gensalt 12 src = .ok s) :
    ∃ raw, readBytes src 0 16 = some raw ∧ raw.length = 16 ∧
      (∀ b ∈ raw, b < 256) ∧
      s = [36, 50, 98, 36, 49, 50, 36] ++ b64encode raw := by
  unfold gensalt at h
  rw [if_neg (by omega)] at h
  cases hrb : readBytes src 0 16 with
  | none => rw [hrb] at h; cases h
  | some raw =>
    rw [hrb] at h
    injection h with h
    obtain ⟨hl, hb⟩ := readBytes_some 16 0 raw hrb
    exact ⟨raw, rfl, hl, hb, h.symm⟩

theorem parseSalt_shape_some {v d1 d2 : Nat} {rest : List Nat}
    (hv : v = 97 ∨ v = 98) (h1 : 48 ≤ d1) (h2 : d1 ≤ 57) (h3 : 48 ≤ d2)
    (h4 : d2 ≤ 57) (hlo : 4 ≤ (d1 - 48) * 10 + (d2 - 48))
    (hhi : (d1 - 48) * 10 + (d2 - 48) ≤ 31)
    (hlen : (rest.take 22).length = 22)
    (hall : ∀ c ∈ rest.take 22, validRadix64Byte c = true) :
    parseSalt (36 :: 50 :: v :: 36 :: d1 :: d2 :: 36 :: rest) =
      some ((d1 - 48) * 10 + (d2 - 48), rest.take 22) := by
  simp only [parseSalt]
  rw [if_pos ⟨trivial, trivial, hv, trivial, h1, h2, h3, h4, trivial⟩,
    if_pos ⟨hlo, hhi, hlen, List.all_eq_true.mpr hall⟩]

theorem parseSalt_some {s : List Nat} {cost : Nat} {chars : List Nat}
    (h : parseSalt s = some (cost, chars)) :
    ∃ v d1 d2 rest, s = 36 :: 50 :: v :: 36 :: d1 :: d2 :: 36 :: rest ∧
      (v = 97 ∨ v = 98) ∧ 48 ≤ d1 ∧ d1 ≤ 57 ∧ 48 ≤ d2 ∧ d2 ≤ 57 ∧
      cost = (d1 - 48) * 10 + (d2 - 48) ∧ 4 ≤ cost ∧ cost ≤ 31 ∧
      chars = rest.take 22 ∧ chars.length = 22 ∧
      ∀ c ∈ chars, validRadix64Byte c = true := by
  unfold parseSalt at h
  split at h
  case h_1 a0 a1 v a3 d1 d2 a6 rest =>
    split at h
    case isTrue hc =>
      split at h
      case isTrue hc2 =>
        injection h with h
        obtain ⟨ha0, ha1, hv, ha3, h48, h57, h48', h57', ha6⟩ := hc
        obtain ⟨hlo, hhi, hlen, hall⟩ := hc2
        subst ha0 ha1 ha3 ha6
        have hcost : cost = (d1 - 48) * 10 + (d2 - 48) :=
          (congrArg Prod.fst h).symm
        have hchars : chars = rest.take 22 :=
          (congrArg Prod.snd h).symm
        refine ⟨v, d1, d2, rest, rfl, hv, h48, h57, h48', h57', hcost,
          by omega, by omega, hchars, by rw [hchars]; exact hlen, ?_⟩
        rw [hchars]
        exact fun c hc => List.all_eq_true.mp hall c hc
      case isFalse => cases h
    case isFalse => cases h
  case h_2 => cases h

theorem hashpw_eq_of_parse {pw s : List Nat} {cost : Nat} {chars : List Nat}
    (hp : parseSalt s = some (cost, chars)) :
    hashpw pw s = if 72 < pw.length then .error .inputTooLong
      else .ok (s.take 29 ++ b64encode (bcryptCore cost chars pw)) := by
  unfold hashpw
  rw [hp]

theorem hashpw_eq_of_parse_none {pw s : List Nat}
    (hp : parseSalt s = none) : hashpw pw s = .error .invalidSalt := by
  unfold hashpw
  rw [hp]

theorem hashpw_ok {pw s d : List Nat} (h : hashpw pw s = .ok d) :
    ∃ cost chars, parseSalt s = some (cost, chars) ∧ pw.length ≤ 72 ∧
      d = s.take 29 ++ b64encode (bcryptCore cost chars pw) := by
  cases hp : parseSalt s with
  | none => rw [hashpw_eq_of_parse_none hp] at h; cases h
  | some p =>
    obtain ⟨cost, chars⟩ := p
    rw [hashpw_eq_of_parse hp] at h
    by_cases hlen : 72 < pw.length
    · rw [if_pos hlen] at h; cases h
    · rw [if_neg hlen] at h
      injection h with h
      exact ⟨cost, chars, rfl, by omega, h.symm⟩

theorem take29_parse_shape (v d1 d2 : Nat) (rest : List Nat) :
    (36 :: 50 :: v :: 36 :: d1 :: d2 :: 36 :: rest).take 29 =
      [36, 50, v, 36, d1, d2, 36] ++ rest.take 22 := rfl

theorem parseSalt_gensalt {raw : List Nat} (hl : raw.length = 16)
    (hb : ∀ b ∈ raw, b < 256) :
    parseSalt ([36, 50, 98, 36, 49, 50, 36] ++ b64encode raw) =
      some (12, b64encode raw) := by
  have hlen : (b64encode raw).length = 22 := by
    rw [b64encode_length, hl]
  have htake : (b64encode raw).take 22 = b64encode raw := by
    conv_lhs => rw [← hlen]
    exact List.take_length _
  have h := @parseSalt_shape_some 98 49 50 (b64encode raw)
    (Or.inr rfl) (by omega) (by omega) (by omega)
    (by omega) (by norm_num) (by norm_num)
    (by rw [htake]; exact hlen)
    (by rw [htake]; exact b64encode_valid hb)
  rw [show ([36, 50, 98, 36, 49, 50, 36] ++ b64encode raw) =
    (36 :: 50 :: 98 :: 36 :: 49 :: 50 :: 36 :: b64encode raw) from rfl, h,
    htake]

theorem salt_take29_eq {s : List Nat} {cost : Nat} {chars : List Nat}
    (hp : parseSalt s = some (cost, chars)) :
    ∃ v d1 d2, (v = 97 ∨ v = 98) ∧ 48 ≤ d1 ∧ d1 ≤ 57 ∧ 48 ≤ d2 ∧ d2 ≤ 57 ∧
      s.take 29 = [36, 50, v, 36, d1, d2, 36] ++ chars := by
  obtain ⟨v, d1, d2, rest, hs, hv, h1, h2, h3, h4, hcost, hlo, hhi, hchars,
    hclen, hcval⟩ := parseSalt_some hp
  refine ⟨v, d1, d2, hv, h1, h2, h3, h4, ?_⟩
  rw [hs, take29_parse_shape, hchars]

theorem salt_take29_length {s : List Nat} {cost : Nat} {chars : List Nat}
    (hp : parseSalt s = some (cost, chars)) : (s.take 29).length = 29 := by
  obtain ⟨v, d1, d2, _, _, _, _, _, ht⟩ := salt_take29_eq hp
  obtain ⟨v', d1', d2', rest', hs', hv', h1', h2', h3', h4', hcost', hlo',
    hhi', hchars', hclen', hcval'⟩ := parseSalt_some hp
  rw [ht]
  simp [hclen']

theorem salt_take29_lt_128 {s : List Nat} {cost : Nat} {chars : List Nat}
    (hp : parseSalt s = some (cost, chars)) : ∀ b ∈ s.take 29, b < 128 := by
  obtain ⟨v, d1, d2, hv, h1, h2, h3, h4, ht⟩ := salt_take29_eq hp
  obtain ⟨v', d1', d2', rest', hs', hv', h1', h2', h3', h4', hcost', hlo',
    hhi', hchars', hclen', hcval⟩ := parseSalt_some hp
  rw [ht]
  intro b hb
  simp only [List.mem_append, List.mem_cons, List.not_mem_nil, or_false] at hb
  rcases hb with (rfl | rfl | rfl | rfl | rfl | rfl | rfl) | hb
  · omega
  · omega
  · omega
  · omega
  · omega
  · omega
  · omega
  · exact validRadix64Byte_lt_128 (hcval b hb)

theorem hashpw_digest_length {pw s d : List Nat} (h : hashpw pw s = .ok d) :
    d.length = 60 := by
  obtain ⟨cost, chars, hp, hlen, hd⟩ := hashpw_ok h
  rw [hd, List.length_append, salt_take29_length hp, b64encode_length,
    bcryptCore_length]

theorem hashpw_digest_lt_128 {pw s d : List Nat} (h : hashpw pw s = .ok d) :
    ∀ b ∈ d, b < 128 := by
  obtain ⟨cost, chars, hp, hlen, hd⟩ := hashpw_ok h
  rw [hd]
  intro b hb
  rcases List.mem_append.mp hb with hb | hb
  · exact salt_take29_lt_128 hp b hb
  · exact b64encode_lt_128 (bcryptCore_lt_256 cost chars pw) b hb

theorem hashpw_rehash {pw s d : List Nat} (h : hashpw pw s = .ok d) :
    hashpw pw d = .ok d := by
  obtain ⟨cost, chars, hp, hlen, hd⟩ := hashpw_ok h
  obtain ⟨v, d1, d2, rest, hs, hv, h1, h2, h3, h4, hcost, hlo, hhi, hchars,
    hclen, hcval⟩ := parseSalt_some hp
  have ht29 : s.take 29 = [36, 50, v, 36, d1, d2, 36] ++ chars := by
    rw [hs, take29_parse_shape, hchars]
  have hdshape : d = 36 :: 50 :: v :: 36 :: d1 :: d2 :: 36 ::
      (chars ++ b64encode (bcryptCore cost chars pw)) := by
    rw [hd, ht29]
    simp
  have htake22 : (chars ++ b64encode (bcryptCore cost chars pw)).take 22 =
      chars := by
    conv_lhs => rw [← hclen]
    exact List.take_left _ _
  have hparse_d : parseSalt d = some (cost, chars) := by
    rw [hdshape, parseSalt_shape_some hv h1 h2 h3 h4 (by omega) (by omega)
      (by rw [htake22]; exact hclen) (by rw [htake22]; exact hcval), htake22,
      ← hcost]
  rw [hashpw_eq_of_parse hparse_d, if_neg (by omega)]
  have htake29d : d.take 29 = s.take 29 := by
    rw [hdshape, take29_parse_shape, htake22, ht29]
  rw [htake29d, ← hd]

/-! ### Facts about UTF-8 rendering -/

theorem charToNat_ofNat {b : Nat} (h : b < 128) : (Char.ofNat b).toNat = b := by
  have hv : Nat.isValidChar b := Or.inl (by omega)
  unfold Char.ofNat
  rw [dif_pos hv]
  rfl

theorem utf8DecodeChars_cons_ascii {b : Nat} (rest : List Nat)
    (hb : b < 128) :
    utf8DecodeChars (b :: rest) =
      (utf8DecodeChars rest).map (fun cs => Char.ofNat b :: cs) := by
  match rest with
  | [] =>
    conv_lhs => rw [utf8DecodeChars]
    rw [if_pos hb]
  | [b2] =>
    conv_lhs => rw [utf8DecodeChars]
    rw [if_pos hb]
  | [b2, b3] =>
    conv_lhs => rw [utf8DecodeChars]
    rw [if_pos hb]
  | b2 :: b3 :: b4 :: r =>
    conv_lhs => rw [utf8DecodeChars]
    rw [if_pos hb]

theorem utf8DecodeChars_ascii {bs : List Nat} (h : ∀ b ∈ bs, b < 128) :
    utf8DecodeChars bs = .ok (bs.map Char.ofNat) := by
  induction bs with
  | nil => rfl
  | cons b rest ih =>
    have hb : b < 128 := h b (by simp)
    have ih' := ih (fun x hx => h x (by simp [hx]))
    rw [utf8DecodeChars_cons_ascii rest hb, ih']
    rfl

theorem utf8Encode_map_ofNat {bs : List Nat} (h : ∀ b ∈ bs, b < 128) :
    utf8Encode (String.mk (bs.map Char.ofNat)) = bs := by
  unfold utf8Encode
  show (bs.map Char.ofNat).flatMap (fun c => utf8EncodeChar c.toNat) = bs
  induction bs with
  | nil => rfl
  | cons b rest ih =>
    have hb : b < 128 := h b (by simp)
    have ih' := ih (fun x hx => h x (by simp [hx]))
    rw [List.map_cons, List.flatMap_cons, ih', charToNat_ofNat hb]
    rw [utf8EncodeChar, if_pos hb]
    rfl

theorem render_ascii {d : List Nat} (h : ∀ b ∈ d, b < 128) :
    render d = .ok (String.mk (d.map Char.ofNat)) := by
  unfold render
  rw [utf8DecodeChars_ascii h]

/-! ### Facts about the script pipeline -/

theorem hashAppDigest_gensalt_error {pw : String} {src : EntropySource}
    {e : BErr} (hgen : gensalt 12 src = .error e) :
    hashAppDigest pw src = .error e := by
  unfold hashAppDigest
  rw [hgen]

theorem hashAppDigest_of_gensalt {pw : String} {src : EntropySource}
    {salt : List Nat} (hgen : gensalt 12 src = .ok salt) :
    hashAppDigest pw src =
      match hashpw (utf8Encode pw) salt with
      | .error e => .error e
      | .ok h => render h := by
  unfold hashAppDigest
  rw [hgen]

theorem hashAppDigest_of_hash {pw : String} {src : EntropySource}
    {salt h : List Nat} (hgen : gensalt 12 src = .ok salt)
    (hh : hashpw (utf8Encode pw) salt = .ok h) :
    hashAppDigest pw src = render h := by
  rw [hashAppDigest_of_gensalt hgen, hh]

/-! ### The claims -/

/-- Claim C1: Hash is deterministic — for every plaintext and every salt,
two runs of `Hash(P, S)` (the script's `bcrypt.hashpw(P, S)`) yield the same
result; in the model the hashing step reads no ambient state, so any two
evaluations agree. -/
theorem hash_deterministic (pw s : List Nat) (r1 r2 : Except BErr (List Nat))
    (h1 : hashpw pw s = r1) (h2 : hashpw pw s = r2) : r1 = r2 := by
  rw [← h1, ← h2]

/-- Witness for C1 at a concrete plaintext and salt. -/
theorem hash_deterministic_witness :
    (Except.ok digestA : Except BErr (List Nat)) = .ok digestA :=
  hash_deterministic [97] saltA (.ok digestA) (.ok digestA) rfl rfl

/-- Claim C3: hashing one plaintext with two distinct well-formed salts
yields two different digest strings. -/
theorem distinct_salts_distinct_digests {pw s1 s2 d1 d2 : List Nat}
    (hw1 : wellFormedSalt s1 = true) (hw2 : wellFormedSalt s2 = true)
    (hne : s1 ≠ s2) (hh1 : hashpw pw s1 = .ok d1)
    (hh2 : hashpw pw s2 = .ok d2) : d1 ≠ d2 := by
  have hl1 : s1.length = 29 := by
    simp only [wellFormedSalt, Bool.and_eq_true, beq_iff_eq] at hw1
    exact hw1.1
  have hl2 : s2.length = 29 := by
    simp only [wellFormedSalt, Bool.and_eq_true, beq_iff_eq] at hw2
    exact hw2.1
  obtain ⟨c1, ch1, hp1, hq1, hd1⟩ := hashpw_ok hh1
  obtain ⟨c2, ch2, hp2, hq2, hd2⟩ := hashpw_ok hh2
  have ht1 : s1.take 29 = s1 := by rw [← hl1]; exact List.take_length _
  have ht2 : s2.take 29 = s2 := by rw [← hl2]; exact List.take_length _
  intro he
  apply hne
  rw [hd1, ht1, hd2, ht2] at he
  exact List.append_inj_left he (by rw [hl1, hl2])

/-- Witness for C3: two concrete distinct salts give distinct digests. -/
theorem distinct_salts_distinct_digests_witness : digestA ≠ digestB :=
  @distinct_salts_distinct_digests [97] saltA saltB digestA digestB
    (by decide) (by decide) (by decide) rfl rfl

/-- Claim C4: the digest is self-describing — for a well-formed salt the
whole salt record is a prefix of the digest, followed by the 31-digit hash
field, 60 bytes in all. -/
theorem digest_self_describing {pw s d : List Nat}
    (hw : wellFormedSalt s = true) (hh : hashpw pw s = .ok d) :
    (∃ tail, d = s ++ tail ∧ tail.length = 31) ∧ d.length = 60 := by
  have hl : s.length = 29 := by
    simp only [wellFormedSalt, Bool.and_eq_true, beq_iff_eq] at hw
    exact hw.1
  obtain ⟨cost, chars, hp, hq, hd⟩ := hashpw_ok hh
  have ht : s.take 29 = s := by rw [← hl]; exact List.take_length _
  refine ⟨⟨b64encode (bcryptCore cost chars pw), by rw [hd, ht], ?_⟩,
    hashpw_digest_length hh⟩
  rw [b64encode_length, bcryptCore_length]

/-- Witness for C4 at a concrete plaintext and salt. -/
theorem digest_self_describing_witness :
    (∃ tail, digestA = saltA ++ tail ∧ tail.length = 31) ∧
      digestA.length = 60 :=
  @digest_self_describing [97] saltA digestA (by decide) rfl

/-- Claim C5: on a successful run the script's only externally visible
output is the digest string plus one newline on standard output; nothing on
the error stream, exit code 0, and no file is written. -/
theorem run_success_frame (src : EntropySource) (t : String)
    (h : hashAppDigest "TestPassword123!" src = .ok t) :
    createUserRun src = ⟨t ++ "\n", "", 0, []⟩ := by
  unfold createUserRun runHashApp
  rw [h]

/-- Witness for C5 over a concrete entropy source. -/
theorem run_success_frame_witness :
    createUserRun srcW = ⟨textW ++ "\n", "", 0, []⟩ :=
  run_success_frame srcW textW rfl

/-- Claim C6: the script recovers from no error — any raised condition from
salt generation, hashing or rendering propagates uncaught: the process exits
nonzero with a diagnostic on the error stream and writes no digest to
standard output. -/
theorem run_error_frame (pw : String) (src : EntropySource) (e : BErr)
    (h : hashAppDigest pw src = .error e) :
    runHashApp pw src = ⟨"", errMsg e, 1, []⟩ ∧ errMsg e ≠ "" := by
  constructor
  · unfold runHashApp
    rw [h]
  · cases e <;> decide

/-- Witness for C6: the run whose entropy source fails. -/
theorem run_error_frame_witness :
    runHashApp "TestPassword123!" srcNone =
      ⟨"", errMsg .entropyUnavailable, 1, []⟩ ∧
      errMsg BErr.entropyUnavailable ≠ "" :=
  run_error_frame "TestPassword123!" srcNone .entropyUnavailable rfl

/-- Claim C7: `Hash` fails with `InvalidSalt` on every malformed salt, fails
with `InputTooLong` on every plaintext beyond 72 bytes (given a parseable
salt), and succeeds on every plaintext within the limit under a parseable
salt. -/
theorem hash_error_conditions (pw salt : List Nat) :
    (parseSalt salt = none → hashpw pw salt = .error .invalidSalt) ∧
    ((parseSalt salt).isSome = true → 72 < pw.length →
      hashpw pw salt = .error .inputTooLong) ∧
    ((parseSalt salt).isSome = true → pw.length ≤ 72 →
      ∃ d, hashpw pw salt = .ok d) := by
  refine ⟨fun hp => hashpw_eq_of_parse_none hp, fun hp hlen => ?_,
    fun hp hlen => ?_⟩
  · obtain ⟨⟨cost, chars⟩, hp'⟩ := Option.isSome_iff_exists.mp hp
    rw [hashpw_eq_of_parse hp', if_pos hlen]
  · obtain ⟨⟨cost, chars⟩, hp'⟩ := Option.isSome_iff_exists.mp hp
    exact ⟨_, by rw [hashpw_eq_of_parse hp', if_neg (by omega)]⟩

/-- Witness for C7: an empty salt is rejected, a 73-byte plaintext is
rejected, and a short plaintext under a canonical salt succeeds. -/
theorem hash_error_conditions_witness :
    hashpw [97] [] = .error .invalidSalt ∧
    hashpw (List.replicate 73 97) saltA = .error .inputTooLong ∧
    ∃ d, hashpw [97] saltA = .ok d :=
  ⟨(hash_error_conditions [97] []).1 rfl,
   (hash_error_conditions (List.replicate 73 97) saltA).2.1 (by decide)
     (by decide),
   (hash_error_conditions [97] saltA).2.2 (by decide) (by decide)⟩

/-- Claim C8: rendering is idempotent — re-rendering the byte form of an
already-rendered digest string returns the same string unchanged. -/
theorem render_idempotent {pw s d : List Nat} {t : String}
    (hh : hashpw pw s = .ok d) (hr : render d = .ok t) :
    render (utf8Encode t) = .ok t := by
  have hascii := hashpw_digest_lt_128 hh
  rw [render_ascii hascii] at hr
  injection hr with hr
  rw [← hr, utf8Encode_map_ofNat hascii, render_ascii hascii, hr]

/-- Witness for C8 at a concrete digest. -/
theorem render_idempotent_witness : render (utf8Encode textA) = .ok textA :=
  @render_idempotent [97] saltA digestA textA rfl rfl

/-- Claim C9, amended: `Verify(P, Hash(P, S))` always returns true, and
`Verify(P', Hash(P, S))` returns true exactly when re-hashing `P'` with the
digest's embedded salt record reproduces the digest — so distinct plaintexts
whose hashes collide are also accepted, and the original claim's second half
(false for every `P' ≠ P`) does not hold. -/
theorem verify_law_amended {pw s d : List Nat} (h : hashpw pw s = .ok d) :
    checkpw pw d = true ∧
      ∀ q, (checkpw q d = true ↔ hashpw q d = .ok d) := by
  have hcheck : ∀ q, (checkpw q d = true ↔ hashpw q d = .ok d) := by
    intro q
    unfold checkpw
    cases hx : hashpw q d with
    | error e => simp
    | ok x => simp
  exact ⟨(hcheck pw).mpr (hashpw_rehash h), hcheck⟩

/-- Witness for C9 (amended) at a concrete plaintext and salt. -/
theorem verify_law_amended_witness : checkpw [97] digestA = true :=
  (@verify_law_amended [97] saltA digestA rfl).1

/-- Counterexample to claim C9 as stated: the plaintexts `[97, 98]` and
`[98, 97]` are distinct, yet Verify accepts the second against the first's
digest, because their underlying hash values collide. -/
theorem verify_law_counterexample :
    ([98, 97] : List Nat) ≠ [97, 98] ∧
      hashpw [97, 98] saltA = .ok digestC ∧
      checkpw [98, 97] digestC = true :=
  ⟨by decide, rfl, by decide⟩

/-- Claim C2: for the fixed input `"TestPassword123!"` the emitted digest
string begins with the tag `"$2b$12$"` (the default version and cost of
`GenerateSalt`) followed by exactly 53 further characters, 60 in all. -/
theorem digest_format (src : EntropySource) (s : List Nat)
    (hgen : gensalt 12 src = .ok s) :
    ∃ t, hashAppDigest "TestPassword123!" src = .ok t ∧
      (∃ r, t.data = "$2b$12$".data ++ r ∧ r.length = 53) ∧
      t.length = 60 := by
  obtain ⟨raw, hrb, hl, hbb, hs⟩ := gensalt_ok hgen
  have hparse : parseSalt s = some (12, b64encode raw) := by
    rw [hs]
    exact parseSalt_gensalt hl hbb
  have hlen22 : (b64encode raw).length = 22 := by rw [b64encode_length, hl]
  have hslen : s.length = 29 := by
    rw [hs, List.length_append, hlen22]
    rfl
  have hstake : s.take 29 = s := by
    rw [← hslen]
    exact List.take_length _
  have hh : hashpw (utf8Encode "TestPassword123!") s =
      .ok (s.take 29 ++ b64encode (bcryptCore 12 (b64encode raw)
        (utf8Encode "TestPassword123!"))) := by
    rw [hashpw_eq_of_parse hparse, if_neg (by decide)]
  have hascii := hashpw_digest_lt_128 hh
  have hrend := render_ascii hascii
  have happ : hashAppDigest "TestPassword123!" src =
      .ok (String.mk ((s.take 29 ++ b64encode (bcryptCore 12 (b64encode raw)
        (utf8Encode "TestPassword123!"))).map Char.ofNat)) := by
    rw [hashAppDigest_of_hash hgen hh, hrend]
  have hhdr : List.map Char.ofNat [36, 50, 98, 36, 49, 50, 36] =
      "$2b$12$".data := by decide
  refine ⟨_, happ, ⟨(b64encode raw).map Char.ofNat ++
    (b64encode (bcryptCore 12 (b64encode raw)
      (utf8Encode "TestPassword123!"))).map Char.ofNat, ?_, ?_⟩, ?_⟩
  · show (s.take 29 ++ _).map Char.ofNat = _
    rw [hstake, hs, List.map_append, List.map_append, List.append_assoc,
      hhdr]
  · rw [List.length_append, List.length_map, List.length_map, hlen22,
      b64encode_length, bcryptCore_length]
  · show ((s.take 29 ++ _).map Char.ofNat).length = 60
    rw [List.length_map]
    exact hashpw_digest_length hh

/-- Witness for C2 over a concrete entropy source. -/
theorem digest_format_witness :
    ∃ t, hashAppDigest "TestPassword123!" srcW = .ok t ∧
      (∃ r, t.data = "$2b$12$".data ++ r ∧ r.length = 53) ∧
      t.length = 60 :=
  digest_format srcW saltW rfl

/-- Claim C10: the hardcoded plaintext `"TestPassword123!"` encodes to 16
UTF-8 bytes, below the 72-byte limit, so the script's hashing call never
reaches the length-failure branch, and the final decode of the digest never
fails because every digest byte is ASCII. -/
theorem script_input_safe :
    (utf8Encode "TestPassword123!").length = 16 ∧
    (utf8Encode "TestPassword123!").length ≤ 72 ∧
    ∀ src s, gensalt 12 src = .ok s →
      ∃ d, hashpw (utf8Encode "TestPassword123!") s = .ok d ∧
        (∀ b ∈ d, b < 128) ∧ ∃ t, render d = .ok t := by
  refine ⟨by decide, by decide, fun src s hgen => ?_⟩
  obtain ⟨raw, hrb, hl, hbb, hs⟩ := gensalt_ok hgen
  have hparse : parseSalt s = some (12, b64encode raw) := by
    rw [hs]
    exact parseSalt_gensalt hl hbb
  have hh : hashpw (utf8Encode "TestPassword123!") s =
      .ok (s.take 29 ++ b64encode (bcryptCore 12 (b64encode raw)
        (utf8Encode "TestPassword123!"))) := by
    rw [hashpw_eq_of_parse hparse, if_neg (by decide)]
  exact ⟨_, hh, hashpw_digest_lt_128 hh,
    ⟨_, render_ascii (hashpw_digest_lt_128 hh)⟩⟩

/-- Witness for C10's run-time part over a concrete entropy source. -/
theorem script_input_safe_witness :
    ∃ d, hashpw (utf8Encode "TestPassword123!") saltW = .ok d ∧
      (∀ b ∈ d, b < 128) ∧ ∃ t, render d = .ok t :=
  script_input_safe.2.2 srcW saltW rfl
